import Mathlib

/-!
# avm: execution context, heap and operand stack (src/avm.c)

A shallow embedding of `avm_init`, `avm_heap_get`, `avm_heap_set`,
`avm_stack_push`, `avm_stack_pop` and `avm_stack_peak`.

Conventions of the embedding

* `avm_size_t` is an unsigned integer type of `w` bits, at least as wide as
  `int`, so that its arithmetic is arithmetic modulo `2 ^ w`.  The width is a
  parameter of every function that computes with sizes.  Values of type
  `avm_size_t` are natural numbers; the functions reduce modulo `2 ^ w` exactly
  where the C code computes in that type.
* `avm_int` values are integers; the functions modelled here only copy them and
  compare them with zero.
* `size_t` is an unsigned type of `size_t_bits` bits; the product and the sum that
  `avm_init` computes in `size_t` are reduced modulo `2 ^ size_t_bits`.
* A buffer (`memory`, `stack`) is the list of its cells; the length of the list
  is the number of cells of the allocation.  Sizes are counted in cells; the
  byte counts handed to the allocator (`cells * sizeof(avm_int)`) are assumed
  to be representable in `size_t`.  A null buffer is the empty list.
* Memory outside the two buffers is not represented.  A load or a store at an
  index outside its buffer is reported by the ending `oob`; the model gives no
  value to such a load and makes no statement about what such a store
  overwrites.
* The frames of the call stack are not modelled, only its two counters.
* Each function takes the context and returns an `Outcome` holding the context
  it leaves.
-/

namespace AVM

/-- Modelled from the spec: `AVM_SIZE_MAX` is defined in a header that is not among the
sources.  It is the "unsigned capacity ceiling" of `avm_size_t`, the value whose
increment wraps to zero: `2 ^ w - 1` for a type of `w` bits. -/
def AVM_SIZE_MAX (w : Nat) : Nat := 2 ^ w - 1

/-- Modelled from the spec: the `min` of `avm_stack_push` is a helper defined outside the
sources; it is the smaller of its two arguments. -/
def avm_min (a b : Nat) : Nat := if a < b then a else b

/-- Modelled from the spec: `avm_int` is declared in a header that is not among the
sources; the heap holds "fixed-width signed integers".  Its size in bytes is taken to
be 8; only the ratio to `sizeof_AVM_Operation` plays a role. -/
def sizeof_avm_int : Nat := 8

/-- Modelled from the spec: `AVM_Operation` is declared in a header that is not among the
sources.  The spec's program is a sequence of the heap's fixed-width integers that is
copied into the start of the heap, so one operation occupies one `avm_int` cell. -/
def sizeof_AVM_Operation : Nat := sizeof_avm_int

/-- The width of `size_t`, taken to be 64 bits. -/
def size_t_bits : Nat := 64

/-- The struct `AVM_Context`.  `error` holds the format template and the arguments of
the last diagnostic, `none` for a null pointer. -/
structure AVM_Context where
  memory : List Int
  memory_size : Nat
  stack : List Int
  stack_size : Nat
  stack_cap : Nat
  call_stack_size : Nat
  call_stack_cap : Nat
  ins : Nat
  error : Option (String × List Nat)
  deriving DecidableEq, Repr

/-- How a call ends.
* `ok ctx val`: the call returned 0, `val` is what it stored through its result pointer,
  and every load and store stayed inside its buffer.
* `err ctx`: the call returned the nonzero value of `avm__error`.
* `oob ctx`: the call made a load or a store at an index outside its buffer (undefined
  behaviour in C).  In `avm_heap_set`, `avm_stack_push`, `avm_stack_pop` and
  `avm_stack_peak` the access is the last statement before `return 0`; `ctx` holds the
  fields and the buffer cells as the statements of the function assigned them up to
  there.  The store is a real write to memory outside the buffer and the load reads
  such memory; that memory is not represented, so the load has no value in the model
  and `ctx` does not show what the store overwrote.
* `assert_fail`: an `assert` failed.
* `fuel_out`: the iteration bound of the model of a loop ran out (never produced, see
  `heap_new_size_terminates`). -/
inductive Outcome (α : Type) where
  | ok (ctx : AVM_Context) (val : α)
  | err (ctx : AVM_Context)
  | oob (ctx : AVM_Context)
  | assert_fail
  | fuel_out
  deriving DecidableEq, Repr

/-- The context left by a call that reached `return 0` (with or without an access
outside a buffer on the way), `none` for every other ending. -/
def Outcome.returned_zero {α : Type} : Outcome α → Option AVM_Context
  | .ok ctx _ => some ctx
  | .oob ctx => some ctx
  | _ => none

/-- The data-model invariants of a context for a `w`-bit `avm_size_t`: each buffer has
as many cells as its capacity field says, the live counts do not exceed the capacities,
and the capacities fit the type. -/
def AVM_Context.wf (w : Nat) (ctx : AVM_Context) : Prop :=
  ctx.memory.length = ctx.memory_size ∧ ctx.stack.length = ctx.stack_cap ∧
  ctx.stack_size ≤ ctx.stack_cap ∧ ctx.call_stack_size ≤ ctx.call_stack_cap ∧
  ctx.memory_size ≤ AVM_SIZE_MAX w ∧ ctx.stack_cap ≤ AVM_SIZE_MAX w

instance (w : Nat) (ctx : AVM_Context) : Decidable (ctx.wf w) := by
  unfold AVM_Context.wf
  infer_instance

/-- Modelled from the spec: the answer of the allocator facade (`my_malloc`, `my_calloc`,
`my_realloc`, `my_crealloc`, defined outside the sources) to one request.  `none`: the
request fails and the primitive returns null.  `some junk`: it succeeds, and `junk i` is
the indeterminate content of cell `i` where the primitive does not initialise it. -/
abbrev Alloc := Option (Nat → Int)

/-- Modelled from the spec: `zeroAlloc(n)`, a fresh buffer of `n` zero cells. -/
def my_calloc (a : Alloc) (n : Nat) : Option (List Int) :=
  a.map fun _ => List.replicate n 0

/-- Modelled from the spec: `alloc(n)`, a fresh buffer of `n` cells of indeterminate
content. -/
def my_malloc (a : Alloc) (n : Nat) : Option (List Int) :=
  a.map fun junk => (List.range n).map junk

/-- Modelled from the spec: `growPreserve(buf, newSize)`, a buffer of `new_size` cells
that keeps the cells of `buf` (as far as they fit) and leaves the others
indeterminate. -/
def my_realloc (a : Alloc) (buf : List Int) (new_size : Nat) : Option (List Int) :=
  a.map fun junk => (List.range new_size).map fun i => buf.getD i (junk i)

/-- Modelled from the spec: `growPreserveZeroExtend(buf, oldSize, newSize)`, a buffer of
`new_size` cells whose cells `[0, old_size)` are those of `buf` and whose cells
`[old_size, new_size)` are zero. -/
def my_crealloc (a : Alloc) (buf : List Int) (old_size new_size : Nat) : Option (List Int) :=
  a.map fun _ => (List.range new_size).map fun i => if i < old_size then buf.getD i 0 else 0

/-- Modelled from the spec: `avm__error` is defined outside the sources.  It stores the
diagnostic (template and arguments, formatted by `afmt`) in the error slot of the context
and returns the nonzero failure value; it touches no other field. -/
def avm__error {α : Type} (ctx : AVM_Context) (fmt : String) (args : List Nat) : Outcome α :=
  .err { ctx with error := some (fmt, args) }

/-- The value `1 << 12` stored in an `avm_size_t`. -/
def INITIAL_MEMORY_OVERHEAD (w : Nat) : Nat := (1 <<< 12) % 2 ^ w

/-- The constant of `avm_init`. -/
def INITIAL_CALLSTACK_SIZE : Nat := 256

/-- The function `avm_init`.  `ctx` is the struct the caller passes (its fields are
overwritten), `initial_mem` the array behind the pointer, `oplen` the length argument;
`a_mem`, `a_stack`, `a_calls` are the allocator's answers to the three requests.
`op_bytes` is the product `oplen * sizeof(AVM_Operation)` as `size_t` computes it, in
the `assert` and in the `memcpy`, which copies `op_bytes / sizeof(avm_int)` cells. -/
def avm_init (w : Nat) (ctx : AVM_Context) (initial_mem : List Int) (oplen : Nat)
    (a_mem a_stack a_calls : Alloc) : Outcome Unit :=
  let ctx0 := { ctx with error := none }
  let op_bytes := (oplen * sizeof_AVM_Operation) % 2 ^ size_t_bits
  if ¬ (op_bytes / sizeof_avm_int < AVM_SIZE_MAX w / 2) then
    .assert_fail
  else
    let memory_size := (oplen + INITIAL_MEMORY_OVERHEAD w) % 2 ^ size_t_bits
    let ctx1 := { ctx0 with memory_size := memory_size % 2 ^ w }
    match my_calloc a_mem ctx1.memory_size with
    | none =>
      avm__error { ctx1 with memory := [] } "unable to allocate heap (%d avm_int)" [memory_size]
    | some m =>
      let copied := op_bytes / sizeof_avm_int
      if copied ≤ initial_mem.length ∧ copied ≤ m.length then
        let ctx2 := { ctx1 with memory := initial_mem.take copied ++ m.drop copied }
        let ctx3 := { ctx2 with stack_size := 0, stack_cap := INITIAL_MEMORY_OVERHEAD w }
        match my_malloc a_stack ctx3.stack_cap with
        | none =>
          avm__error { ctx3 with stack := [] } "unable to allocate stack (%d bytes)"
            [ctx3.stack_cap]
        | some s =>
          let ctx4 := { ctx3 with stack := s, call_stack_size := 0,
                                  call_stack_cap := INITIAL_CALLSTACK_SIZE }
          match a_calls with
          | none => avm__error ctx4 "unable to allocate call stack" [ctx4.call_stack_cap]
          | some _ => .ok { ctx4 with ins := 0 } ()
      else .oob { ctx1 with memory := m }

/-- The function `avm_heap_get`; the value is what it stores in `*data`. -/
def avm_heap_get (ctx : AVM_Context) (loc : Nat) : Outcome Int :=
  if loc ≥ ctx.memory_size then .ok ctx 0
  else
    match ctx.memory[loc]? with
    | some x => .ok ctx x
    | none => .oob ctx

/-- The loop `while (new_size < loc && new_size != 0) new_size *= 2;` of `avm_heap_set`,
run for at most `fuel` tests of its condition from the current `new_size`.
`avm_heap_set` starts it from `1` stored in an `avm_size_t`. -/
def heap_new_size (w loc : Nat) : Nat → Nat → Option Nat
  | 0, _ => none
  | fuel + 1, new_size =>
    if new_size < loc ∧ new_size ≠ 0 then heap_new_size w loc fuel (new_size * 2 % 2 ^ w)
    else some new_size

/-- The store `ctx->memory[loc] = data; return 0;` that ends `avm_heap_set`. -/
def heap_store (ctx : AVM_Context) (data : Int) (loc : Nat) : Outcome Unit :=
  if loc < ctx.memory.length then .ok { ctx with memory := ctx.memory.set loc data } ()
  else .oob ctx

/-- The function `avm_heap_set`; `a` is the allocator's answer to the `my_crealloc`
request of the growth branch. -/
def avm_heap_set (w : Nat) (ctx : AVM_Context) (data : Int) (loc : Nat) (a : Alloc) :
    Outcome Unit :=
  if data = 0 ∧ loc ≥ ctx.memory_size then .ok ctx ()
  else if loc ≥ ctx.memory_size then
    match heap_new_size w loc (w + 1) (1 % 2 ^ w) with
    | none => .fuel_out
    | some new_size =>
      if new_size = 0 then
        avm__error ctx
          "internal error, tried to resize memory to index at %u, but memory size integer wrapped."
          [loc]
      else
        match my_crealloc a ctx.memory ctx.memory_size new_size with
        | none =>
          avm__error { ctx with memory := [] } "unable to allocate more memory (%d avm_ints)"
            [new_size]
        | some m => heap_store { ctx with memory := m, memory_size := new_size } data loc
  else heap_store ctx data loc

/-- The end of `avm_stack_push`: `assert(ctx->stack_size != 0);
ctx->stack[ctx->stack_size - 1] = data; return 0;`. -/
def stack_store (ctx : AVM_Context) (data : Int) : Outcome Unit :=
  if ctx.stack_size = 0 then .assert_fail
  else if ctx.stack_size - 1 < ctx.stack.length then
    .ok { ctx with stack := ctx.stack.set (ctx.stack_size - 1) data } ()
  else .oob ctx

/-- The function `avm_stack_push`; `a` is the allocator's answer to the `my_realloc`
request of the growth branch. -/
def avm_stack_push (w : Nat) (ctx : AVM_Context) (data : Int) (a : Alloc) : Outcome Unit :=
  if ctx.stack_size = AVM_SIZE_MAX w then avm__error ctx "Stack overflow" []
  else
    let ctx1 := { ctx with stack_size := (ctx.stack_size + 1) % 2 ^ w }
    if ctx1.stack_cap ≤ ctx1.stack_size then
      let new_cap := avm_min (ctx1.stack_cap * 2 % 2 ^ w) (AVM_SIZE_MAX w) % 2 ^ w
      match my_realloc a ctx1.stack new_cap with
      | none =>
        avm__error { ctx1 with stack := [] } "unable to increase stack size (%d bytes)" [new_cap]
      | some s => stack_store { ctx1 with stack := s, stack_cap := new_cap } data
    else stack_store ctx1 data

/-- The function `avm_stack_pop`; the value is what it stores in `*data`. -/
def avm_stack_pop (ctx : AVM_Context) : Outcome Int :=
  if ctx.stack_size = 0 then
    avm__error ctx "unable to pop item off stack: stack underrun" []
  else
    let ctx1 := { ctx with stack_size := ctx.stack_size - 1 }
    match ctx1.stack[ctx1.stack_size]? with
    | some x => .ok ctx1 x
    | none => .oob ctx1

/-- The function `avm_stack_peak`; the value is what it stores in `*data`. -/
def avm_stack_peak (ctx : AVM_Context) : Outcome Int :=
  if ctx.stack_size = 0 then
    avm__error ctx "unable to read item off stack: stack underrun" []
  else
    match ctx.stack[ctx.stack_size - 1]? with
    | some x => .ok ctx x
    | none => .oob ctx

/-- The context `avm_init` builds for the empty program when its three allocations
succeed and the fresh stack cells happen to hold zero. -/
def fresh (w : Nat) : AVM_Context :=
  { memory := List.replicate (INITIAL_MEMORY_OVERHEAD w) 0
    memory_size := INITIAL_MEMORY_OVERHEAD w
    stack := List.replicate (INITIAL_MEMORY_OVERHEAD w) 0
    stack_size := 0
    stack_cap := INITIAL_MEMORY_OVERHEAD w
    call_stack_size := 0
    call_stack_cap := INITIAL_CALLSTACK_SIZE
    ins := 0
    error := none }

/-- The context `avm_init` builds from the program `p` when its allocations succeed and
the fresh stack cells hold `junk`. -/
def initialized (w : Nat) (p : List Int) (junk : Nat → Int) : AVM_Context :=
  { memory := p ++ List.replicate (INITIAL_MEMORY_OVERHEAD w) 0
    memory_size := p.length + INITIAL_MEMORY_OVERHEAD w
    stack := (List.range (INITIAL_MEMORY_OVERHEAD w)).map junk
    stack_size := 0
    stack_cap := INITIAL_MEMORY_OVERHEAD w
    call_stack_size := 0
    call_stack_cap := INITIAL_CALLSTACK_SIZE
    ins := 0
    error := none }

/-- A small well-formed context, for evaluating the functions: a heap of the four cells
`[10, 20, 30, 0]` and an empty stack of capacity 2. -/
def small : AVM_Context :=
  { memory := [10, 20, 30, 0]
    memory_size := 4
    stack := [0, 0]
    stack_size := 0
    stack_cap := 2
    call_stack_size := 0
    call_stack_cap := INITIAL_CALLSTACK_SIZE
    ins := 0
    error := none }

/-- A 32-bit context whose stack is full at the ceiling: `AVM_SIZE_MAX` live values in a
buffer of `AVM_SIZE_MAX` cells. -/
def full32 : AVM_Context :=
  { small with
    stack := List.replicate (2 ^ 32 - 1) 0
    stack_size := 2 ^ 32 - 1
    stack_cap := 2 ^ 32 - 1 }

/-- A 32-bit context whose stack capacity is the ceiling `AVM_SIZE_MAX` and whose stack
has one free cell. -/
def ceiling32 : AVM_Context :=
  { fresh 32 with
    stack := List.replicate (2 ^ 32 - 1) 3
    stack_size := 2 ^ 32 - 2
    stack_cap := 2 ^ 32 - 1 }

/-- Consecutive calls of `avm_stack_push`, one per value, each with a succeeding
allocator; `none` as soon as one of them does not reach `return 0`. -/
def push_seq (w : Nat) (junk : Nat → Int) : AVM_Context → List Int → Option AVM_Context
  | ctx, [] => some ctx
  | ctx, v :: vs =>
    match (avm_stack_push w ctx v (some junk)).returned_zero with
    | some c => push_seq w junk c vs
    | none => none

/-- The values returned by `n` consecutive calls of `avm_stack_pop`, in the order of the
calls, with the context they leave; `none` as soon as one of them does not return 0 with
a value read inside the buffer. -/
def pop_seq : Nat → AVM_Context → Option (List Int × AVM_Context)
  | 0, ctx => some ([], ctx)
  | n + 1, ctx =>
    match avm_stack_pop ctx with
    | .ok c x => (pop_seq n c).map fun r => (x :: r.1, r.2)
    | _ => none

/-- The diagnostic of `avm_heap_set` for a wrapped size: its template and its argument. -/
def wrapped_size_error (loc : Nat) : String × List Nat :=
  ("internal error, tried to resize memory to index at %u, but memory size integer wrapped.",
    [loc])

/-- The value a call stored through its result pointer, when it ended `ok`. -/
def Outcome.value {α : Type} : Outcome α → Option α
  | .ok _ v => some v
  | _ => none

/-- The number of calls that changed `stack_cap` in the run of `push_seq` over the
values. -/
def growths (w : Nat) (junk : Nat → Int) : AVM_Context → List Int → Nat
  | _, [] => 0
  | ctx, v :: vs =>
    match (avm_stack_push w ctx v (some junk)).returned_zero with
    | some c => (if c.stack_cap = ctx.stack_cap then 0 else 1) + growths w junk c vs
    | none => 0

/-! ## Auxiliary facts -/

theorem heap_new_size_exit (w loc : Nat) :
    ∀ (fuel n r : Nat), heap_new_size w loc fuel n = some r → loc ≤ r ∨ r = 0 := by
  intro fuel
  induction fuel with
  | zero => intro n r h; simp [heap_new_size] at h
  | succ k ih =>
    intro n r h
    unfold heap_new_size at h
    split at h
    · exact ih _ _ h
    · rename_i hc
      have hr : n = r := by simpa using h
      subst hr
      by_cases h0 : n = 0
      · exact Or.inr h0
      · left
        by_contra hlt
        exact hc ⟨by omega, h0⟩

theorem heap_new_size_steps (w loc : Nat) :
    ∀ (fuel k : Nat), k ≤ w → w + 1 ≤ k + fuel →
      ∃ r, heap_new_size w loc fuel (2 ^ k % 2 ^ w) = some r := by
  intro fuel
  induction fuel with
  | zero => intro k hk hf; omega
  | succ f ih =>
    intro k hk hf
    unfold heap_new_size
    split
    · rename_i hc
      have hkw : k < w := by
        rcases Nat.lt_or_ge k w with h | h
        · exact h
        · have : k = w := by omega
          subst this
          simp at hc
      have hstep : 2 ^ k % 2 ^ w * 2 % 2 ^ w = 2 ^ (k + 1) % 2 ^ w := by
        rw [Nat.mod_eq_of_lt (Nat.pow_lt_pow_right (by norm_num) hkw), pow_succ]
      rw [hstep]
      exact ih (k + 1) hkw (by omega)
    · exact ⟨_, rfl⟩

/-- The loop of `avm_heap_set` ends within the `w + 1` tests the model grants it. -/
theorem heap_new_size_terminates (w loc : Nat) :
    ∃ r, heap_new_size w loc (w + 1) (1 % 2 ^ w) = some r := by
  have h := heap_new_size_steps w loc (w + 1) 0 (Nat.zero_le _) (by omega)
  simpa using h

theorem get_of_wf_heap (ctx : AVM_Context) (loc : Nat)
    (h : ctx.memory.length = ctx.memory_size) :
    avm_heap_get ctx loc =
      .ok ctx (if ctx.memory_size ≤ loc then 0 else ctx.memory.getD loc 0) := by
  unfold avm_heap_get
  by_cases hl : ctx.memory_size ≤ loc
  · simp [hl]
  · have hlt : loc < ctx.memory.length := by omega
    simp [hl, List.getElem?_eq_getElem hlt, List.getD_eq_getElem?_getD]

theorem crealloc_cell (buf : List Int) (old_size new_size i : Nat) (junk : Nat → Int) (m : List Int)
    (h : my_crealloc (some junk) buf old_size new_size = some m) :
    m.length = new_size ∧
      m[i]? = if i < new_size then some (if i < old_size then buf.getD i 0 else 0) else none := by
  simp only [my_crealloc, Option.map_some', Option.some.injEq] at h
  subst h
  constructor
  · simp
  · by_cases hi : i < new_size
    · simp [hi, List.getElem?_map, List.getElem?_range hi]
    · simp [hi, List.getElem?_map]
      omega

theorem fresh_wf (w : Nat) (h : 13 ≤ w) : (fresh w).wf w := by
  have hp : 2 ^ 13 ≤ 2 ^ w := Nat.pow_le_pow_right (by norm_num) h
  have hov : INITIAL_MEMORY_OVERHEAD w = 4096 := by
    unfold INITIAL_MEMORY_OVERHEAD
    rw [Nat.mod_eq_of_lt]
    · rfl
    · have : 1 <<< 12 = 4096 := rfl
      omega
  simp only [AVM_Context.wf, fresh, List.length_replicate, hov, AVM_SIZE_MAX,
    INITIAL_CALLSTACK_SIZE]
  refine ⟨trivial, trivial, ?_, ?_, ?_, ?_⟩ <;> omega

theorem init_size_no_wrap (w n : Nat) (h : n < AVM_SIZE_MAX w / 2) :
    (n + INITIAL_MEMORY_OVERHEAD w) % 2 ^ w = n + INITIAL_MEMORY_OVERHEAD w := by
  apply Nat.mod_eq_of_lt
  unfold AVM_SIZE_MAX at h
  unfold INITIAL_MEMORY_OVERHEAD
  have h4096 : 1 <<< 12 = 4096 := rfl
  rw [h4096]
  rcases Nat.lt_or_ge w 13 with hw | hw
  · have hdvd : 2 ^ w ∣ 4096 := by
      have : 2 ^ w ∣ 2 ^ 12 := Nat.pow_dvd_pow 2 (by omega)
      simpa using this
    rw [Nat.mod_eq_zero_of_dvd hdvd]
    omega
  · have hp : 2 ^ 13 ≤ 2 ^ w := Nat.pow_le_pow_right (by norm_num) hw
    rw [Nat.mod_eq_of_lt (by omega)]
    omega

/-- In the range where the `size_t` product does not wrap, the `assert` of `avm_init`
reads `oplen < AVM_SIZE_MAX / 2` and the call, given `oplen` cells to copy and succeeding
allocations, builds the context shown. -/
theorem avm_init_run (w : Nat) (c : AVM_Context) (initial_mem : List Int) (oplen : Nat)
    (j1 j2 j3 : Nat → Int)
    (haddr : oplen * sizeof_AVM_Operation < 2 ^ size_t_bits)
    (hpre : oplen < AVM_SIZE_MAX w / 2) (hle : oplen ≤ initial_mem.length) :
    avm_init w c initial_mem oplen (some j1) (some j2) (some j3) =
      .ok { memory := initial_mem.take oplen ++
              (List.replicate (oplen + INITIAL_MEMORY_OVERHEAD w) 0).drop oplen
            memory_size := oplen + INITIAL_MEMORY_OVERHEAD w
            stack := (List.range (INITIAL_MEMORY_OVERHEAD w)).map j2
            stack_size := 0
            stack_cap := INITIAL_MEMORY_OVERHEAD w
            call_stack_size := 0
            call_stack_cap := INITIAL_CALLSTACK_SIZE
            ins := 0
            error := none } () := by
  have hbytes : (oplen * sizeof_AVM_Operation) % 2 ^ size_t_bits / sizeof_avm_int = oplen := by
    rw [Nat.mod_eq_of_lt haddr]
    simp [sizeof_AVM_Operation, sizeof_avm_int]
  have hov : INITIAL_MEMORY_OVERHEAD w ≤ 4096 := by
    unfold INITIAL_MEMORY_OVERHEAD
    have h4096 : 1 <<< 12 = 4096 := rfl
    rw [h4096]
    exact Nat.mod_le _ _
  have hsum : (oplen + INITIAL_MEMORY_OVERHEAD w) % 2 ^ size_t_bits
      = oplen + INITIAL_MEMORY_OVERHEAD w := by
    apply Nat.mod_eq_of_lt
    have h64 : 2 ^ size_t_bits = 18446744073709551616 := by decide
    have h8 : sizeof_AVM_Operation = 8 := rfl
    rw [h64, h8] at haddr
    rw [h64]
    omega
  have hsz := init_size_no_wrap w oplen hpre
  unfold avm_init
  simp only [hbytes, hsum, hsz]
  rw [if_neg (by simpa using hpre)]
  simp only [my_calloc, my_malloc, Option.map_some', List.length_replicate]
  rw [if_pos ⟨hle, by omega⟩]

theorem fresh_is_init (w : Nat) (c : AVM_Context) (j1 j3 : Nat → Int) (h : 2 ≤ w) :
    avm_init w c [] 0 (some j1) (some fun _ => 0) (some j3) = .ok (fresh w) () := by
  have hmax : 0 < AVM_SIZE_MAX w / 2 := by
    have h4 : 2 ^ 2 ≤ 2 ^ w := Nat.pow_le_pow_right (by norm_num) h
    unfold AVM_SIZE_MAX
    omega
  have hrep : ∀ n : Nat, List.map (fun _ => (0 : Int)) (List.range n) = List.replicate n 0 := by
    intro n
    apply List.ext_getElem <;> simp
  rw [avm_init_run w c [] 0 j1 (fun _ => 0) j3 (by decide) hmax (Nat.le_refl _)]
  simp [fresh, hrep]

theorem avm_init_ok (w : Nat) (c : AVM_Context) (p : List Int) (j1 j2 j3 : Nat → Int)
    (haddr : p.length * sizeof_AVM_Operation < 2 ^ size_t_bits)
    (hpre : (p.length * sizeof_AVM_Operation) / sizeof_avm_int < AVM_SIZE_MAX w / 2) :
    avm_init w c p p.length (some j1) (some j2) (some j3) = .ok (initialized w p j2) () := by
  have hcells : (p.length * sizeof_AVM_Operation) / sizeof_avm_int = p.length := by
    simp [sizeof_AVM_Operation, sizeof_avm_int]
  rw [hcells] at hpre
  rw [avm_init_run w c p p.length j1 j2 j3 haddr hpre (Nat.le_refl _)]
  simp [initialized, List.drop_replicate]

theorem initialized_get (w : Nat) (p : List Int) (junk : Nat → Int) (i : Nat) :
    avm_heap_get (initialized w p junk) i = .ok (initialized w p junk) (p.getD i 0) := by
  rw [get_of_wf_heap _ i (by simp [initialized])]
  congr 1
  simp only [initialized, List.getD_eq_getElem?_getD]
  rcases Nat.lt_or_ge i p.length with hi | hi
  · have : ¬ p.length + INITIAL_MEMORY_OVERHEAD w ≤ i := by omega
    simp [this, List.getElem?_append_left hi]
  · rw [List.getElem?_append_right hi, List.getElem?_eq_none hi, List.getElem?_replicate]
    split
    · simp
    · split <;> simp

theorem avm_init_ok_inv (w : Nat) (c : AVM_Context) (p : List Int) (oplen : Nat)
    (a1 a2 a3 : Alloc) (ctx : AVM_Context)
    (h : avm_init w c p oplen a1 a2 a3 = .ok ctx ()) :
    ∃ j1 j2 j3, a1 = some j1 ∧ a2 = some j2 ∧ a3 = some j3 := by
  rcases a1 with _ | j1
  · unfold avm_init at h
    simp only [my_calloc, Option.map_none', avm__error] at h
    split at h <;> simp at h
  · rcases a2 with _ | j2
    · unfold avm_init at h
      simp only [my_calloc, my_malloc, Option.map_some', Option.map_none', avm__error] at h
      split at h
      · simp at h
      · split at h <;> simp at h
    · rcases a3 with _ | j3
      · unfold avm_init at h
        simp only [my_calloc, my_malloc, Option.map_some', avm__error] at h
        split at h
        · simp at h
        · split at h <;> simp at h
      · exact ⟨j1, j2, j3, rfl, rfl, rfl⟩

/-- The growth branch of `avm_stack_push` when the capacity it computes does not reach
the cell to be written: the call returns 0 after a store outside the buffer. -/
theorem push_grow_oob (w : Nat) (ctx : AVM_Context) (v : Int) (junk : Nat → Int)
    (h1 : ctx.stack_size ≠ AVM_SIZE_MAX w)
    (h2 : ctx.stack_cap ≤ (ctx.stack_size + 1) % 2 ^ w)
    (h3 : (ctx.stack_size + 1) % 2 ^ w ≠ 0)
    (h4 : avm_min (ctx.stack_cap * 2 % 2 ^ w) (AVM_SIZE_MAX w) % 2 ^ w
            ≤ (ctx.stack_size + 1) % 2 ^ w - 1) :
    avm_stack_push w ctx v (some junk) =
      .oob { ctx with
        stack_size := (ctx.stack_size + 1) % 2 ^ w
        stack := (List.range (avm_min (ctx.stack_cap * 2 % 2 ^ w) (AVM_SIZE_MAX w) % 2 ^ w)).map
          fun i => ctx.stack.getD i (junk i)
        stack_cap := avm_min (ctx.stack_cap * 2 % 2 ^ w) (AVM_SIZE_MAX w) % 2 ^ w } := by
  unfold avm_stack_push
  rw [if_neg h1]
  dsimp only
  rw [if_pos h2]
  simp only [my_realloc, Option.map_some']
  unfold stack_store
  dsimp only
  rw [if_neg h3, if_neg (by simpa using h4)]

theorem push_seq_nil (w : Nat) (junk : Nat → Int) (ctx : AVM_Context) :
    push_seq w junk ctx [] = some ctx := rfl

theorem push_seq_cons (w : Nat) (junk : Nat → Int) (ctx c : AVM_Context) (v : Int)
    (vs : List Int) (h : (avm_stack_push w ctx v (some junk)).returned_zero = some c) :
    push_seq w junk ctx (v :: vs) = push_seq w junk c vs := by
  simp only [push_seq, h]

theorem push_seq_append (w : Nat) (junk : Nat → Int) (vs ws : List Int) :
    ∀ ctx : AVM_Context, push_seq w junk ctx (vs ++ ws) =
      (push_seq w junk ctx vs).bind fun c => push_seq w junk c ws := by
  induction vs with
  | nil => intro ctx; rfl
  | cons v vs ih =>
    intro ctx
    simp only [List.cons_append, push_seq]
    split
    · exact ih _
    · rfl

theorem take_set_succ (l : List Int) (n : Nat) (v : Int) (h : n < l.length) :
    (l.set n v).take (n + 1) = l.take n ++ [v] := by
  have h1 : (l.set n v).take n = l.take n := by
    apply List.ext_getElem?
    intro i
    rw [List.getElem?_take, List.getElem?_take]
    split
    · rw [List.getElem?_set_ne (by omega)]
    · rfl
  rw [List.take_succ, List.getElem?_set_self h, h1]
  rfl

theorem take_realloc (l : List Int) (junk : Nat → Int) (n N : Nat) (hn : n ≤ l.length)
    (hN : n ≤ N) :
    ((List.range N).map fun i => l.getD i (junk i)).take n = l.take n := by
  apply List.ext_getElem?
  intro i
  by_cases hi : i < n
  · have hiN : i < N := by omega
    have hil : i < l.length := by omega
    simp [List.getElem?_take, hi, List.getElem?_map, List.getElem?_range hiN,
      List.getD_eq_getElem?_getD, List.getElem?_eq_getElem hil]
  · simp [List.getElem?_take, hi]

/-- A push onto a well-formed stack with a free cell, when the capacity need not grow or
its double is representable: the call ends `ok`, with the store inside the buffer. -/
theorem push_in_range (w : Nat) (ctx : AVM_Context) (v : Int) (junk : Nat → Int)
    (hwf : ctx.wf w) (hlt : ctx.stack_size < ctx.stack_cap)
    (hnw : ctx.stack_size + 1 < ctx.stack_cap ∨ ctx.stack_cap * 2 < 2 ^ w) :
    ∃ c1, avm_stack_push w ctx v (some junk) = .ok c1 () ∧ c1.wf w ∧
      c1.stack_size = ctx.stack_size + 1 ∧ c1.stack_size < c1.stack_cap ∧
      c1.stack_cap =
        (if ctx.stack_size + 1 < ctx.stack_cap then ctx.stack_cap else ctx.stack_cap * 2) ∧
      c1.stack.take c1.stack_size = ctx.stack.take ctx.stack_size ++ [v] := by
  obtain ⟨hm, hs, _, hc, hms, hcap⟩ := hwf
  have hpos : 0 < 2 ^ w := Nat.two_pow_pos w
  have hmax : AVM_SIZE_MAX w = 2 ^ w - 1 := rfl
  have hne : ctx.stack_size ≠ AVM_SIZE_MAX w := by omega
  have hmod : (ctx.stack_size + 1) % 2 ^ w = ctx.stack_size + 1 :=
    Nat.mod_eq_of_lt (by omega)
  unfold avm_stack_push
  rw [if_neg hne]
  dsimp only
  rw [hmod]
  by_cases hg : ctx.stack_size + 1 < ctx.stack_cap
  · rw [if_neg (by omega)]
    unfold stack_store
    dsimp only
    rw [if_neg (by omega), if_pos (by omega)]
    refine ⟨_, rfl, ⟨hm, ?_, ?_, hc, hms, hcap⟩, rfl, hg, by simp [hg], ?_⟩
    · simpa using hs
    · show ctx.stack_size + 1 ≤ ctx.stack_cap
      omega
    · show (ctx.stack.set (ctx.stack_size + 1 - 1) v).take (ctx.stack_size + 1) = _
      rw [Nat.add_sub_cancel]
      exact take_set_succ _ _ _ (by omega)
  · have h2 : ctx.stack_cap * 2 < 2 ^ w := by
      rcases hnw with h | h
      · exact absurd h hg
      · exact h
    have hnew : avm_min (ctx.stack_cap * 2 % 2 ^ w) (AVM_SIZE_MAX w) % 2 ^ w
        = ctx.stack_cap * 2 := by
      rw [Nat.mod_eq_of_lt h2]
      unfold avm_min
      split
      · exact Nat.mod_eq_of_lt h2
      · have : AVM_SIZE_MAX w = ctx.stack_cap * 2 := by omega
        rw [this]
        exact Nat.mod_eq_of_lt h2
    rw [if_pos (by omega), hnew]
    simp only [my_realloc, Option.map_some']
    unfold stack_store
    dsimp only
    rw [if_neg (by omega), if_pos (by simp; omega)]
    refine ⟨_, rfl, ⟨hm, ?_, ?_, hc, hms, ?_⟩, rfl, ?_, by simp [hg], ?_⟩
    · simp
    · show ctx.stack_size + 1 ≤ ctx.stack_cap * 2
      omega
    · show ctx.stack_cap * 2 ≤ AVM_SIZE_MAX w
      omega
    · show ctx.stack_size + 1 < ctx.stack_cap * 2
      omega
    · show (List.set _ (ctx.stack_size + 1 - 1) v).take (ctx.stack_size + 1) = _
      rw [Nat.add_sub_cancel, take_set_succ _ _ _ (by simp; omega),
        take_realloc _ _ _ _ (by omega) (by omega)]

/-- Pushing at most `2 ^ 31 - 1` values of any kind onto the fresh 32-bit context succeeds
with every store inside the buffer, and leaves a well-formed context whose live stack
cells are these values and whose capacity is a power of two not above `2 ^ 31`. -/
theorem pushes_from_fresh (junk : Nat → Int) (vs : List Int) :
    vs.length ≤ 2 ^ 31 - 1 →
    ∃ ctx, push_seq 32 junk (fresh 32) vs = some ctx ∧ ctx.wf 32 ∧
      ctx.stack_size = vs.length ∧ ctx.stack_size < ctx.stack_cap ∧
      ctx.stack_cap ≤ 2 ^ 31 ∧ (∃ j, ctx.stack_cap = 2 ^ j) ∧
      ctx.stack.take ctx.stack_size = vs := by
  induction vs using List.reverseRecOn with
  | nil =>
    intro _
    exact ⟨fresh 32, rfl, fresh_wf 32 (by decide), rfl, by decide, by decide, ⟨12, by decide⟩,
      rfl⟩
  | append_singleton vs v ih =>
    intro hlen
    rw [List.length_append, List.length_singleton] at hlen
    obtain ⟨ctx, hseq, hwf, hsz, hlt, hcap, ⟨j, hj⟩, hlive⟩ := ih (by omega)
    have hj31 : ctx.stack_size + 1 = ctx.stack_cap → j + 1 ≤ 31 := by
      intro he
      by_contra hcon
      have : 2 ^ 31 ≤ 2 ^ j := Nat.pow_le_pow_right (by norm_num) (by omega)
      omega
    obtain ⟨c1, hpush, hwf1, hsz1, hlt1, hcap1, hlive1⟩ := push_in_range 32 ctx v junk hwf hlt (by
      by_cases hg : ctx.stack_size + 1 < ctx.stack_cap
      · exact Or.inl hg
      · right
        omega)
    refine ⟨c1, ?_, hwf1, ?_, hlt1, ?_, ?_, by rw [hlive1, hlive]⟩
    · rw [push_seq_append, hseq]
      show push_seq 32 junk ctx [v] = some c1
      rw [push_seq_cons 32 junk ctx c1 v [] (by rw [hpush]; rfl), push_seq_nil]
    · rw [hsz1, hsz, List.length_append, List.length_singleton]
    · rw [hcap1]
      split
      · exact hcap
      · have h31 := hj31 (by omega)
        rw [hj, ← pow_succ]
        exact Nat.pow_le_pow_right (by norm_num) h31
    · rw [hcap1]
      split
      · exact ⟨j, hj⟩
      · exact ⟨j + 1, by rw [hj, pow_succ]⟩

/-- A pop from a stack whose live cells are `xs ++ [v]`. -/
theorem pop_live (ctx : AVM_Context) (xs : List Int) (v : Int)
    (hlen : ctx.stack_size ≤ ctx.stack.length)
    (hlive : ctx.stack.take ctx.stack_size = xs ++ [v]) :
    avm_stack_pop ctx = .ok { ctx with stack_size := ctx.stack_size - 1 } v ∧
      ctx.stack_size - 1 = xs.length ∧
      ctx.stack.take (ctx.stack_size - 1) = xs := by
  have hsz : ctx.stack_size = xs.length + 1 := by
    have := congrArg List.length hlive
    rw [List.length_take, List.length_append, List.length_singleton] at this
    omega
  have hcell : ctx.stack[ctx.stack_size - 1]? = some v := by
    have h := congrArg (fun l => l[xs.length]?) hlive
    simp only [List.getElem?_take] at h
    rw [hsz] at h
    simpa [hsz] using h
  refine ⟨?_, by omega, ?_⟩
  · unfold avm_stack_pop
    rw [if_neg (by omega)]
    dsimp only
    rw [hcell]
  · have h := congrArg (List.take xs.length) hlive
    rw [List.take_take] at h
    simpa [hsz] using h

theorem pop_seq_ok (n : Nat) (ctx c : AVM_Context) (x : Int)
    (h : avm_stack_pop ctx = .ok c x) :
    pop_seq (n + 1) ctx = (pop_seq n c).map fun r => (x :: r.1, r.2) := by
  simp only [pop_seq, h]

theorem pops_live (vs : List Int) :
    ∀ (xs : List Int) (ctx : AVM_Context), ctx.stack_size ≤ ctx.stack.length →
      ctx.stack.take ctx.stack_size = xs ++ vs →
      pop_seq vs.length ctx =
        some (vs.reverse, { ctx with stack_size := ctx.stack_size - vs.length }) := by
  induction vs using List.reverseRecOn with
  | nil =>
    intro xs ctx _ _
    rfl
  | append_singleton ws v ih =>
    intro xs ctx hlen hlive
    rw [← List.append_assoc] at hlive
    obtain ⟨hpop, hsz, htake⟩ := pop_live ctx (xs ++ ws) v hlen hlive
    rw [List.length_append, List.length_singleton]
    rw [pop_seq_ok _ _ _ _ hpop]
    have hlen1 : ctx.stack_size - 1 ≤ ctx.stack.length := by omega
    rw [ih xs { ctx with stack_size := ctx.stack_size - 1 } hlen1 htake]
    simp [Nat.sub_sub, Nat.add_comm]

/-- On a fresh 32-bit context, at most `2 ^ 31 - 1` pushes followed by as many pops: the
pushes all succeed and the pops all succeed and return the values in reverse order,
through every growth of the buffer on the way. -/
theorem lifo_from_fresh (junk : Nat → Int) (vs : List Int) (h : vs.length ≤ 2 ^ 31 - 1) :
    ∃ ctx, push_seq 32 junk (fresh 32) vs = some ctx ∧
      pop_seq vs.length ctx = some (vs.reverse, { ctx with stack_size := 0 }) := by
  obtain ⟨ctx, hseq, hwf, hsz, _, _, _, hlive⟩ := pushes_from_fresh junk vs h
  have hlen : ctx.stack_size ≤ ctx.stack.length := by
    rw [hwf.2.1]
    exact hwf.2.2.1
  have hpops := pops_live vs [] ctx hlen (by simpa using hlive)
  rw [hsz, Nat.sub_self] at hpops
  exact ⟨ctx, hseq, hpops⟩

/-- The push at a 32-bit context whose stack has capacity `2 ^ 31` and one free cell: the
doubled capacity wraps to 0 and the push returns 0 after a store at an index outside
the emptied buffer. -/
theorem push_at_half_range (ctx : AVM_Context) (v : Int) (junk : Nat → Int)
    (hs : ctx.stack_size = 2 ^ 31 - 1) (hc : ctx.stack_cap = 2 ^ 31) :
    ∃ c1, avm_stack_push 32 ctx v (some junk) = .oob c1 ∧
      c1.stack_size = 2 ^ 31 ∧ c1.stack_cap = 0 ∧ c1.stack = [] := by
  have hp := push_grow_oob 32 ctx v junk (by rw [hs]; decide) (by rw [hs, hc]; decide)
    (by rw [hs]; decide) (by rw [hs, hc]; decide)
  have hnew : avm_min (ctx.stack_cap * 2 % 2 ^ 32) (AVM_SIZE_MAX 32) % 2 ^ 32 = 0 := by
    rw [hc]; decide
  have hsz : (ctx.stack_size + 1) % 2 ^ 32 = 2 ^ 31 := by
    rw [hs]; decide
  rw [hnew, hsz] at hp
  exact ⟨_, hp, rfl, rfl, rfl⟩

theorem ceiling32_wf : ceiling32.wf 32 := by
  obtain ⟨hm, _, _, hc, hms, _⟩ := fresh_wf 32 (by decide)
  exact ⟨hm, List.length_replicate _ _, by decide, hc, hms, by decide⟩

/-- What the loop of `avm_heap_set` computes from `2 ^ k`, when every smaller power of two
is below `loc`: 0 when all the powers of two of the type are below `loc`, the least power
of two that is not below `loc` otherwise. -/
theorem heap_new_size_char (w loc : Nat) :
    ∀ (fuel k : Nat), k ≤ w → w + 1 ≤ k + fuel → (∀ i, i < k → 2 ^ i < loc) →
      ∃ r, heap_new_size w loc fuel (2 ^ k % 2 ^ w) = some r ∧
        ((r = 0 ∧ ∀ j, j < w → 2 ^ j < loc) ∨
         (∃ j, j < w ∧ r = 2 ^ j ∧ loc ≤ 2 ^ j ∧ ∀ i, i < j → 2 ^ i < loc)) := by
  intro fuel
  induction fuel with
  | zero => intro k hk hf; omega
  | succ f ih =>
    intro k hk hf hinv
    unfold heap_new_size
    rcases Nat.lt_or_ge k w with hkw | hkw
    · have hval : 2 ^ k % 2 ^ w = 2 ^ k :=
        Nat.mod_eq_of_lt (Nat.pow_lt_pow_right (by norm_num) hkw)
      have hpos : 0 < 2 ^ k := Nat.two_pow_pos k
      rw [hval]
      by_cases hc : 2 ^ k < loc ∧ 2 ^ k ≠ 0
      · rw [if_pos hc]
        have hstep : 2 ^ k * 2 % 2 ^ w = 2 ^ (k + 1) % 2 ^ w := by rw [pow_succ]
        rw [hstep]
        apply ih (k + 1) hkw (by omega)
        intro i hi
        rcases Nat.lt_or_ge i k with h | h
        · exact hinv i h
        · have : i = k := by omega
          rw [this]
          exact hc.1
      · rw [if_neg hc]
        refine ⟨_, rfl, Or.inr ⟨k, hkw, rfl, ?_, hinv⟩⟩
        by_contra hlt
        exact hc ⟨by omega, by omega⟩
    · have hkeq : k = w := by omega
      subst hkeq
      rw [Nat.mod_self, if_neg (by simp)]
      exact ⟨_, rfl, Or.inl ⟨rfl, hinv⟩⟩

/-- The result of the loop as `avm_heap_set` runs it. -/
theorem heap_new_size_result (w loc : Nat) :
    ∃ r, heap_new_size w loc (w + 1) (1 % 2 ^ w) = some r ∧
      ((r = 0 ∧ ∀ j, j < w → 2 ^ j < loc) ∨
       (∃ j, j < w ∧ r = 2 ^ j ∧ loc ≤ 2 ^ j ∧ ∀ i, i < j → 2 ^ i < loc)) := by
  have h := heap_new_size_char w loc (w + 1) 0 (Nat.zero_le _) (by omega)
    (fun i hi => absurd hi (Nat.not_lt_zero i))
  simpa using h

/-- At a power of two of the type the loop stops at that power of two itself. -/
theorem heap_new_size_pow2 (w k : Nat) (hk : k < w) :
    heap_new_size w (2 ^ k) (w + 1) (1 % 2 ^ w) = some (2 ^ k) := by
  obtain ⟨r, hr, hcase⟩ := heap_new_size_result w (2 ^ k)
  rw [hr]
  rcases hcase with ⟨_, hall⟩ | ⟨j, _, hj, hle, hmin⟩
  · exact absurd (hall k hk) (Nat.lt_irrefl _)
  · have hkj : k ≤ j := (Nat.pow_le_pow_iff_right (by norm_num)).1 hle
    rcases Nat.lt_or_ge k j with h | h
    · exact absurd (hmin k h) (Nat.lt_irrefl _)
    · have : j = k := by omega
      rw [hj, this]

/-- The growth branch of `avm_heap_set` at a power of two of the type: the heap is
reallocated to exactly `2 ^ k` cells and the store at index `2 ^ k` falls outside it. -/
theorem heap_set_pow2_oob (w k : Nat) (hk : k < w) (ctx : AVM_Context) (data : Int)
    (junk : Nat → Int) (hd : data ≠ 0) (hge : ctx.memory_size ≤ 2 ^ k) :
    avm_heap_set w ctx data (2 ^ k) (some junk) =
      .oob { ctx with
        memory := (List.range (2 ^ k)).map fun i =>
          if i < ctx.memory_size then ctx.memory.getD i 0 else 0
        memory_size := 2 ^ k } := by
  have hpos : 0 < 2 ^ k := Nat.two_pow_pos k
  unfold avm_heap_set
  rw [if_neg (fun h => hd h.1), if_pos hge, heap_new_size_pow2 w k hk]
  dsimp only
  rw [if_neg (by omega)]
  simp only [my_crealloc, Option.map_some']
  unfold heap_store
  rw [if_neg (by simp)]

/-- With a nonzero value, a location at or beyond `memory_size` and a succeeding
allocator, `avm_heap_set` reports the wrapped size exactly when every power of two of
the type lies strictly below the location. -/
theorem heap_set_wrap_iff (w : Nat) (ctx : AVM_Context) (data : Int) (loc : Nat)
    (junk : Nat → Int) (hd : data ≠ 0) (hge : ctx.memory_size ≤ loc) :
    (∃ c, avm_heap_set w ctx data loc (some junk) = .err c) ↔ ∀ j, j < w → 2 ^ j < loc := by
  obtain ⟨r, hr, hcase⟩ := heap_new_size_result w loc
  unfold avm_heap_set
  rw [if_neg (fun h => hd h.1), if_pos hge, hr]
  dsimp only
  rcases hcase with ⟨h0, hall⟩ | ⟨j, hj, hrj, hle, _⟩
  · rw [if_pos h0]
    exact ⟨fun _ => hall, fun _ => ⟨_, rfl⟩⟩
  · have hpos : 0 < 2 ^ j := Nat.two_pow_pos j
    rw [if_neg (by omega)]
    simp only [my_crealloc, Option.map_some']
    unfold heap_store
    constructor
    · rintro ⟨c, hc⟩
      split at hc <;> simp at hc
    · intro hall
      have := hall j hj
      omega

theorem overhead_eq (w : Nat) (hw : 13 ≤ w) : INITIAL_MEMORY_OVERHEAD w = 4096 := by
  have hp : 2 ^ 13 ≤ 2 ^ w := Nat.pow_le_pow_right (by norm_num) hw
  unfold INITIAL_MEMORY_OVERHEAD
  rw [Nat.mod_eq_of_lt]
  · rfl
  · have : 1 <<< 12 = 4096 := rfl
    omega

/-- Every function but `avm_stack_push` keeps `stack_size ≤ stack_cap`: the contexts
left by `avm_stack_pop`, `avm_stack_peak`, `avm_heap_get` and `avm_heap_set` when they
return 0. -/
theorem stack_bound_kept (w : Nat) (ctx c : AVM_Context) (data : Int) (loc : Nat) (a : Alloc)
    (hb : ctx.stack_size ≤ ctx.stack_cap) :
    ((avm_stack_pop ctx).returned_zero = some c → c.stack_size ≤ c.stack_cap) ∧
    ((avm_stack_peak ctx).returned_zero = some c → c.stack_size ≤ c.stack_cap) ∧
    ((avm_heap_get ctx loc).returned_zero = some c → c.stack_size ≤ c.stack_cap) ∧
    ((avm_heap_set w ctx data loc a).returned_zero = some c → c.stack_size ≤ c.stack_cap) := by
  refine ⟨?_, ?_, ?_, ?_⟩
  · intro h
    unfold avm_stack_pop at h
    split at h
    · simp [avm__error, Outcome.returned_zero] at h
    · dsimp only at h
      split at h <;>
      · simp only [Outcome.returned_zero, Option.some.injEq] at h
        subst h
        show ctx.stack_size - 1 ≤ ctx.stack_cap
        omega
  · intro h
    unfold avm_stack_peak at h
    split at h
    · simp [avm__error, Outcome.returned_zero] at h
    · split at h <;>
      · simp only [Outcome.returned_zero, Option.some.injEq] at h
        subst h
        exact hb
  · intro h
    unfold avm_heap_get at h
    split at h
    · simp only [Outcome.returned_zero, Option.some.injEq] at h
      subst h
      exact hb
    · split at h <;>
      · simp only [Outcome.returned_zero, Option.some.injEq] at h
        subst h
        exact hb
  · intro h
    have store : ∀ c0 : AVM_Context, c0.stack_size = ctx.stack_size →
        c0.stack_cap = ctx.stack_cap → (heap_store c0 data loc).returned_zero = some c →
        c.stack_size ≤ c.stack_cap := by
      intro c0 h1 h2 hs
      unfold heap_store at hs
      split at hs <;>
      · simp only [Outcome.returned_zero, Option.some.injEq] at hs
        subst hs
        show c0.stack_size ≤ c0.stack_cap
        omega
    unfold avm_heap_set at h
    split at h
    · simp only [Outcome.returned_zero, Option.some.injEq] at h
      subst h
      exact hb
    · split at h
      · split at h
        · simp [Outcome.returned_zero] at h
        · split at h
          · simp [avm__error, Outcome.returned_zero] at h
          · split at h
            · simp [avm__error, Outcome.returned_zero] at h
            · refine store _ ?_ ?_ h <;> rfl
      · refine store _ ?_ ?_ h <;> rfl

theorem growths_cons (w : Nat) (junk : Nat → Int) (ctx c : AVM_Context) (v : Int)
    (vs : List Int) (h : (avm_stack_push w ctx v (some junk)).returned_zero = some c) :
    growths w junk ctx (v :: vs) =
      (if c.stack_cap = ctx.stack_cap then 0 else 1) + growths w junk c vs := by
  simp only [growths, h]

theorem growths_append (w : Nat) (junk : Nat → Int) (vs ws : List Int) :
    ∀ ctx c : AVM_Context, push_seq w junk ctx vs = some c →
      growths w junk ctx (vs ++ ws) = growths w junk ctx vs + growths w junk c ws := by
  induction vs with
  | nil =>
    intro ctx c h
    have hc : ctx = c := by simpa [push_seq] using h
    subst hc
    simp [growths]
  | cons v vs ih =>
    intro ctx c h
    simp only [push_seq] at h
    split at h
    · rename_i c1 hc1
      rw [List.cons_append, growths_cons w junk ctx c1 v _ hc1,
        growths_cons w junk ctx c1 v _ hc1, ih c1 c h, Nat.add_assoc]
    · simp at h

/-- A run of pushes that stays below the capacity: every call ends `ok`, the capacity
is never changed. -/
theorem pushes_no_growth (w : Nat) (junk : Nat → Int) (vs : List Int) :
    ∀ ctx : AVM_Context, ctx.wf w → ctx.stack_size + vs.length < ctx.stack_cap →
      ∃ c, push_seq w junk ctx vs = some c ∧ c.wf w ∧
        c.stack_size = ctx.stack_size + vs.length ∧ c.stack_cap = ctx.stack_cap ∧
        growths w junk ctx vs = 0 := by
  induction vs with
  | nil =>
    intro ctx hwf _
    exact ⟨ctx, rfl, hwf, rfl, rfl, rfl⟩
  | cons v vs ih =>
    intro ctx hwf hlen
    rw [List.length_cons] at hlen
    obtain ⟨c1, hpush, hwf1, hsz1, _, hcap1, _⟩ :=
      push_in_range w ctx v junk hwf (by omega) (Or.inl (by omega))
    rw [if_pos (by omega)] at hcap1
    have hret : (avm_stack_push w ctx v (some junk)).returned_zero = some c1 := by
      rw [hpush]; rfl
    obtain ⟨c, hseq, hwfc, hszc, hcapc, hg⟩ := ih c1 hwf1 (by rw [hsz1, hcap1]; omega)
    refine ⟨c, ?_, hwfc, ?_, ?_, ?_⟩
    · rw [push_seq_cons w junk ctx c1 v vs hret, hseq]
    · rw [hszc, hsz1, List.length_cons]
      omega
    · rw [hcapc, hcap1]
    · rw [growths_cons w junk ctx c1 v vs hret, hg, if_pos hcap1]

theorem initialized_wf (w : Nat) (p : List Int) (junk : Nat → Int) (hw : 13 ≤ w)
    (hpre : p.length < AVM_SIZE_MAX w / 2) : (initialized w p junk).wf w := by
  have hov := overhead_eq w hw
  have hp : 2 ^ 13 ≤ 2 ^ w := Nat.pow_le_pow_right (by norm_num) hw
  unfold AVM_SIZE_MAX at hpre
  simp only [AVM_Context.wf, initialized, hov, AVM_SIZE_MAX, INITIAL_CALLSTACK_SIZE,
    List.length_append, List.length_replicate, List.length_map, List.length_range]
  refine ⟨trivial, trivial, ?_, ?_, ?_, ?_⟩ <;> omega

/-- In the range where the `size_t` product does not wrap, and on an `avm_size_t` of at
least 13 bits, the sum `oplen + 4096` is not truncated and every successful `avm_init`
leaves the fields the code assigns. -/
theorem avm_init_fields_in_range (w : Nat) (c : AVM_Context) (initial_mem : List Int)
    (oplen : Nat) (hw : 13 ≤ w)
    (haddr : oplen * sizeof_AVM_Operation < 2 ^ size_t_bits)
    (hpre : oplen < AVM_SIZE_MAX w / 2) :
    (oplen + 4096) % 2 ^ w = oplen + 4096 ∧
    (∀ (j1 j2 j3 : Nat → Int) (ctx : AVM_Context), oplen ≤ initial_mem.length →
      avm_init w c initial_mem oplen (some j1) (some j2) (some j3) = .ok ctx () →
      ctx.memory_size = oplen + 4096 ∧ ctx.memory.length = oplen + 4096 ∧
      ctx.stack_size = 0 ∧ ctx.stack_cap = 4096 ∧ ctx.stack.length = 4096 ∧
      ctx.call_stack_size = 0 ∧ ctx.call_stack_cap = 256 ∧ ctx.ins = 0 ∧
      ctx.error = none) := by
  have hov := overhead_eq w hw
  have hsz := init_size_no_wrap w oplen hpre
  rw [hov] at hsz
  refine ⟨hsz, ?_⟩
  intro j1 j2 j3 ctx hle h
  rw [avm_init_run w c initial_mem oplen j1 j2 j3 haddr hpre hle] at h
  simp only [Outcome.ok.injEq, and_true] at h
  subst h
  refine ⟨by rw [hov], ?_, rfl, hov, ?_, rfl, rfl, rfl, rfl⟩
  · simp only [List.length_append, List.length_take, List.length_drop,
      List.length_replicate, hov]
    omega
  · simp only [List.length_map, List.length_range, hov]

/-- When the `size_t` product is 0 the `assert` of `avm_init` passes on every
`avm_size_t` of at least 2 bits and the `memcpy` copies nothing. -/
theorem avm_init_no_copy (w : Nat) (c : AVM_Context) (initial_mem : List Int) (oplen : Nat)
    (j1 j2 j3 : Nat → Int)
    (hb : (oplen * sizeof_AVM_Operation) % 2 ^ size_t_bits / sizeof_avm_int = 0)
    (hmax : 0 < AVM_SIZE_MAX w / 2) :
    avm_init w c initial_mem oplen (some j1) (some j2) (some j3) =
      .ok { memory := List.replicate
              ((oplen + INITIAL_MEMORY_OVERHEAD w) % 2 ^ size_t_bits % 2 ^ w) 0
            memory_size := (oplen + INITIAL_MEMORY_OVERHEAD w) % 2 ^ size_t_bits % 2 ^ w
            stack := (List.range (INITIAL_MEMORY_OVERHEAD w)).map j2
            stack_size := 0
            stack_cap := INITIAL_MEMORY_OVERHEAD w
            call_stack_size := 0
            call_stack_cap := INITIAL_CALLSTACK_SIZE
            ins := 0
            error := none } () := by
  unfold avm_init
  simp only [hb]
  rw [if_neg (fun h => h hmax)]
  simp only [my_calloc, my_malloc, Option.map_some', List.length_replicate]
  rw [if_pos ⟨Nat.zero_le _, Nat.zero_le _⟩]
  simp only [List.take_zero, List.drop_zero, List.nil_append]

/-- C1 at its own witness: on the freshly initialised 32-bit context of the empty program,
`avm_heap_set` of value 1 at location `2 ^ 20` grows the heap to exactly `2 ^ 20` cells,
so its store falls one cell past the end of the buffer, and the `avm_heap_get` that
follows returns 0, not 1. -/
theorem avm_heap_set_get_pow2_fails :
    ∃ c0 c1 : AVM_Context,
      avm_init 32 small [] 0 (some fun _ => 0) (some fun _ => 0) (some fun _ => 0) = .ok c0 () ∧
      c0.wf 32 ∧
      avm_heap_set 32 c0 1 (2 ^ 20) (some fun _ => 0) = .oob c1 ∧
      (avm_heap_set 32 c0 1 (2 ^ 20) (some fun _ => 0)).returned_zero = some c1 ∧
      c1.memory_size = 2 ^ 20 ∧ c1.memory.length = 2 ^ 20 ∧
      avm_heap_get c1 (2 ^ 20) = .ok c1 0 := by
  have hloop : heap_new_size 32 (2 ^ 20) 33 (1 % 2 ^ 32) = some (2 ^ 20) := by decide
  have hsize : (fresh 32).memory_size = 4096 := by decide
  have hset : avm_heap_set 32 (fresh 32) 1 (2 ^ 20) (some fun _ => 0) =
      .oob { fresh 32 with
        memory := (List.range (2 ^ 20)).map fun i =>
          if i < (fresh 32).memory_size then (fresh 32).memory.getD i 0 else 0
        memory_size := 2 ^ 20 } := by
    unfold avm_heap_set
    rw [if_neg (by simp), if_pos (by rw [hsize]; norm_num), hloop]
    dsimp only
    rw [if_neg (by norm_num)]
    simp only [my_crealloc, Option.map_some']
    unfold heap_store
    rw [if_neg (by simp)]
  refine ⟨fresh 32,
    { fresh 32 with
      memory := (List.range (2 ^ 20)).map fun i =>
        if i < (fresh 32).memory_size then (fresh 32).memory.getD i 0 else 0
      memory_size := 2 ^ 20 },
    fresh_is_init 32 small _ _ (by decide), fresh_wf 32 (by decide), ?_, ?_, rfl, ?_, ?_⟩
  · exact hset
  · rw [hset]
    rfl
  · simp
  · unfold avm_heap_get
    rw [if_pos (by simp)]

/-- C2: on a well-formed context, when `avm_heap_set` at `loc` reaches `return 0`, every
other location reads afterwards what it read before, also when the heap was grown; in
particular a location that was at or beyond the old `memory_size` still reads 0. -/
theorem avm_heap_set_frame (w : Nat) (ctx : AVM_Context) (data : Int) (loc other : Nat)
    (a : Alloc) (ctx' : AVM_Context) (hwf : ctx.wf w) (hne : other ≠ loc)
    (hset : (avm_heap_set w ctx data loc a).returned_zero = some ctx') :
    ∃ x, avm_heap_get ctx other = .ok ctx x ∧ avm_heap_get ctx' other = .ok ctx' x ∧
      (ctx.memory_size ≤ other → x = 0) := by
  have hlen := hwf.1
  refine ⟨if ctx.memory_size ≤ other then 0 else ctx.memory.getD other 0,
    get_of_wf_heap ctx other hlen, ?_, fun h => by simp [h]⟩
  unfold avm_heap_set at hset
  split at hset
  · simp only [Outcome.returned_zero, Option.some.injEq] at hset
    subst hset
    exact get_of_wf_heap ctx other hlen
  · split at hset
    · rename_i hge
      split at hset
      · simp [Outcome.returned_zero] at hset
      · rename_i n hn
        split at hset
        · simp [avm__error, Outcome.returned_zero] at hset
        · rename_i hn0
          have hexit := heap_new_size_exit w loc _ _ _ hn
          have hln : loc ≤ n := by omega
          cases a with
          | none => simp [my_crealloc, avm__error, Outcome.returned_zero] at hset
          | some junk =>
            obtain ⟨m, hm⟩ : ∃ m, my_crealloc (some junk) ctx.memory ctx.memory_size n = some m :=
              ⟨_, rfl⟩
            have hcell := crealloc_cell ctx.memory ctx.memory_size n other junk m hm
            rw [hm] at hset
            dsimp only at hset
            have key : ∀ c : AVM_Context, c.memory_size = n → c.memory.length = n →
                c.memory[other]? = m[other]? →
                avm_heap_get c other =
                  .ok c (if ctx.memory_size ≤ other then 0 else ctx.memory.getD other 0) := by
              intro c hs hl hc
              rw [get_of_wf_heap c other (by omega), hs]
              by_cases hon : n ≤ other
              · have : ctx.memory_size ≤ other := by omega
                simp [hon, this]
              · have hlt : other < n := by omega
                rw [hcell.2] at hc
                simp only [hlt, if_true] at hc
                simp only [hon, if_false, List.getD_eq_getElem?_getD, hc, Option.getD_some]
                by_cases hold : other < ctx.memory_size
                · have : ¬ ctx.memory_size ≤ other := by omega
                  simp [hold, this]
                · have : ctx.memory_size ≤ other := by omega
                  simp [hold, this]
            unfold heap_store at hset
            split at hset
            · simp only [Outcome.returned_zero, Option.some.injEq] at hset
              subst hset
              exact key _ rfl (by simp [hcell.1]) (by simp [List.getElem?_set_ne (Ne.symm hne)])
            · simp only [Outcome.returned_zero, Option.some.injEq] at hset
              subst hset
              exact key _ rfl hcell.1 rfl
    · rename_i hlt
      unfold heap_store at hset
      split at hset
      · simp only [Outcome.returned_zero, Option.some.injEq] at hset
        subst hset
        rw [get_of_wf_heap _ other (by simp [hlen])]
        simp [List.getD_eq_getElem?_getD, List.getElem?_set_ne (Ne.symm hne)]
      · simp only [Outcome.returned_zero, Option.some.injEq] at hset
        subst hset
        exact get_of_wf_heap ctx other hlen

/-- Witness of C2: writing 9 at location 5 of the four-cell heap `[10, 20, 30, 0]` grows
it to eight cells, and location 1 reads the same before and after. -/
theorem avm_heap_set_frame_witness :
    small.wf 32 ∧ (1 : Nat) ≠ 5 ∧
    (avm_heap_set 32 small 9 5 (some fun _ => 0)).returned_zero
      = some { small with memory := [10, 20, 30, 0, 0, 9, 0, 0], memory_size := 8 } ∧
    ∃ x, avm_heap_get small 1 = .ok small x ∧
      avm_heap_get { small with memory := [10, 20, 30, 0, 0, 9, 0, 0], memory_size := 8 } 1
        = .ok { small with memory := [10, 20, 30, 0, 0, 9, 0, 0], memory_size := 8 } x ∧
      (small.memory_size ≤ 1 → x = 0) :=
  ⟨by decide, by decide, by decide,
   avm_heap_set_frame 32 small 9 5 1 (some fun _ => 0)
     { small with memory := [10, 20, 30, 0, 0, 9, 0, 0], memory_size := 8 }
     (by decide) (by decide) (by decide)⟩

/-- C3: for a program `p` that is an array of the machine (its size in bytes is a
`size_t` value) and meets the size assertion of `avm_init`, initialisation succeeds
whenever its three allocations do, and after every successful initialisation
`avm_heap_get` at `i` returns `p[i]` for `i` below the length of `p` and 0 for every
other `i`, however large (`p.getD i 0` is `p[i]` inside `p` and 0 outside). -/
theorem avm_init_then_get (w : Nat) (c : AVM_Context) (p : List Int)
    (haddr : p.length * sizeof_AVM_Operation < 2 ^ size_t_bits)
    (hpre : (p.length * sizeof_AVM_Operation) / sizeof_avm_int < AVM_SIZE_MAX w / 2) :
    (∀ j1 j2 j3 : Nat → Int,
      ∃ ctx, avm_init w c p p.length (some j1) (some j2) (some j3) = .ok ctx ()) ∧
    (∀ (a1 a2 a3 : Alloc) (ctx : AVM_Context),
      avm_init w c p p.length a1 a2 a3 = .ok ctx () →
      ∀ i, avm_heap_get ctx i = .ok ctx (p.getD i 0)) := by
  constructor
  · intro j1 j2 j3
    exact ⟨_, avm_init_ok w c p j1 j2 j3 haddr hpre⟩
  · intro a1 a2 a3 ctx h i
    obtain ⟨j1, j2, j3, rfl, rfl, rfl⟩ := avm_init_ok_inv w c p p.length a1 a2 a3 ctx h
    rw [avm_init_ok w c p j1 j2 j3 haddr hpre] at h
    have hctx : initialized w p j2 = ctx := by
      simpa using h
    subst hctx
    exact initialized_get w p j2 i

/-- Witness of C3: the program `[10, 20, 30]` on a 32-bit `avm_size_t`; cells 0, 1, 2
read 10, 20, 30, cell 3 and location `10 ^ 9` read 0. -/
theorem avm_init_then_get_witness :
    ([10, 20, 30] : List Int).length * sizeof_AVM_Operation < 2 ^ size_t_bits ∧
    (([10, 20, 30] : List Int).length * sizeof_AVM_Operation) / sizeof_avm_int
      < AVM_SIZE_MAX 32 / 2 ∧
    ∃ ctx, avm_init 32 small [10, 20, 30] 3 (some fun _ => 0) (some fun _ => 0)
        (some fun _ => 0) = .ok ctx () ∧
      avm_heap_get ctx 0 = .ok ctx 10 ∧ avm_heap_get ctx 1 = .ok ctx 20 ∧
      avm_heap_get ctx 2 = .ok ctx 30 ∧ avm_heap_get ctx 3 = .ok ctx 0 ∧
      avm_heap_get ctx (10 ^ 9) = .ok ctx 0 := by
  have haddr : ([10, 20, 30] : List Int).length * sizeof_AVM_Operation < 2 ^ size_t_bits := by
    decide
  have hpre : (([10, 20, 30] : List Int).length * sizeof_AVM_Operation) / sizeof_avm_int
      < AVM_SIZE_MAX 32 / 2 := by decide
  have h := avm_init_then_get 32 small [10, 20, 30] haddr hpre
  obtain ⟨ctx, hctx⟩ := h.1 (fun _ => 0) (fun _ => 0) (fun _ => 0)
  have hget := h.2 _ _ _ ctx hctx
  exact ⟨haddr, hpre, ctx, hctx, hget 0, hget 1, hget 2, hget 3, hget (10 ^ 9)⟩

/-- C4: `avm_heap_get` returns 0 for a location at or beyond `memory_size` and the stored
cell `memory[loc]` otherwise; for every context and location it ends in `return 0` with
the context unchanged (it has no error path). -/
theorem avm_heap_get_total (ctx : AVM_Context) (loc : Nat) :
    (ctx.memory_size ≤ loc → avm_heap_get ctx loc = .ok ctx 0) ∧
    (loc < ctx.memory_size → ∀ x, ctx.memory[loc]? = some x →
      avm_heap_get ctx loc = .ok ctx x) ∧
    (avm_heap_get ctx loc).returned_zero = some ctx := by
  refine ⟨?_, ?_, ?_⟩
  · intro h
    simp [avm_heap_get, h]
  · intro h x hx
    have hn : ¬ ctx.memory_size ≤ loc := by omega
    simp [avm_heap_get, hn, hx]
  · unfold avm_heap_get
    split
    · rfl
    · split <;> rfl

/-- Witness of C4 on the four-cell heap `[10, 20, 30, 0]`: location 4 reads 0, cell 1
reads 20. -/
theorem avm_heap_get_total_witness :
    avm_heap_get small 4 = .ok small 0 ∧ avm_heap_get small 1 = .ok small 20 :=
  ⟨(avm_heap_get_total small 4).1 (by decide),
   (avm_heap_get_total small 1).2.1 (by decide) 20 (by decide)⟩

/-- C5: writing zero at a location at or beyond `memory_size` succeeds and returns the
context as it was (so `memory_size` and the heap contents are unchanged), and reading the
location afterwards still gives 0. -/
theorem avm_heap_set_zero_beyond (w : Nat) (ctx : AVM_Context) (loc : Nat) (a : Alloc)
    (h : ctx.memory_size ≤ loc) :
    avm_heap_set w ctx 0 loc a = .ok ctx () ∧ avm_heap_get ctx loc = .ok ctx 0 := by
  constructor
  · simp [avm_heap_set, h]
  · simp [avm_heap_get, h]

/-- Witness of C5: zero written at location `10 ^ 9` of a fresh context, with an
allocator that would refuse every request. -/
theorem avm_heap_set_zero_beyond_witness :
    (fresh 32).memory_size ≤ 10 ^ 9 ∧
    avm_heap_set 32 (fresh 32) 0 (10 ^ 9) none = .ok (fresh 32) () ∧
    avm_heap_get (fresh 32) (10 ^ 9) = .ok (fresh 32) 0 :=
  ⟨by decide, avm_heap_set_zero_beyond 32 (fresh 32) (10 ^ 9) none (by decide)⟩

/-- C9: on a context whose `stack_size` is 0, `avm_stack_pop` and `avm_stack_peak` both
return the failure value with their stack-underrun diagnostic in the error slot, and the
context they leave differs from the one they received in the error slot only. -/
theorem avm_stack_pop_peak_underrun (ctx : AVM_Context) (h : ctx.stack_size = 0) :
    avm_stack_pop ctx =
      .err { ctx with error := some ("unable to pop item off stack: stack underrun", []) } ∧
    avm_stack_peak ctx =
      .err { ctx with error := some ("unable to read item off stack: stack underrun", []) } := by
  constructor
  · simp [avm_stack_pop, h, avm__error]
  · simp [avm_stack_peak, h, avm__error]

/-- Witness of C9: the small context, whose stack is empty. -/
theorem avm_stack_pop_peak_underrun_witness :
    small.stack_size = 0 ∧
    avm_stack_pop small =
      .err { small with error := some ("unable to pop item off stack: stack underrun", []) } ∧
    avm_stack_peak small =
      .err { small with error := some ("unable to read item off stack: stack underrun", []) } :=
  ⟨rfl, avm_stack_pop_peak_underrun small rfl⟩

/-- C10: with the allocation succeeding, `avm_stack_push` returns the failure value exactly
when `stack_size` equals `AVM_SIZE_MAX` on entry; in that case, whatever the allocator
would answer, the diagnostic is "Stack overflow" and the context it leaves differs from
the one it received in the error slot only. -/
theorem avm_stack_push_overflow_iff (w : Nat) (ctx : AVM_Context) (data : Int)
    (junk : Nat → Int) :
    ((∃ c, avm_stack_push w ctx data (some junk) = .err c) ↔ ctx.stack_size = AVM_SIZE_MAX w) ∧
    (ctx.stack_size = AVM_SIZE_MAX w → ∀ a : Alloc,
      avm_stack_push w ctx data a = .err { ctx with error := some ("Stack overflow", []) }) := by
  have hfull : ctx.stack_size = AVM_SIZE_MAX w → ∀ a : Alloc,
      avm_stack_push w ctx data a = .err { ctx with error := some ("Stack overflow", []) } := by
    intro h a
    simp [avm_stack_push, h, avm__error]
  refine ⟨⟨?_, fun h => ⟨_, hfull h (some junk)⟩⟩, hfull⟩
  rintro ⟨c, hc⟩
  by_contra hne
  unfold avm_stack_push at hc
  rw [if_neg hne] at hc
  simp only [my_realloc, Option.map_some'] at hc
  unfold stack_store at hc
  split at hc
  · split at hc
    · simp at hc
    · split at hc <;> simp at hc
  · split at hc
    · simp at hc
    · split at hc <;> simp at hc

/-- Witness of C10: on `full32`, whose stack holds `AVM_SIZE_MAX` values, the push fails
with "Stack overflow" and leaves the rest of the context alone, whether the allocator
would succeed or not. -/
theorem avm_stack_push_overflow_iff_witness :
    full32.stack_size = AVM_SIZE_MAX 32 ∧
    (∃ c, avm_stack_push 32 full32 5 (some fun _ => 0) = .err c) ∧
    avm_stack_push 32 full32 5 none =
      .err { full32 with error := some ("Stack overflow", []) } :=
  ⟨by decide,
   (avm_stack_push_overflow_iff 32 full32 5 (fun _ => 0)).1.2 (by decide),
   (avm_stack_push_overflow_iff 32 full32 5 (fun _ => 0)).2 (by decide) none⟩

/-- C11 at the boundary `loc = 2 ^ (w - 1)`: on the freshly initialised 32-bit context no
power of two of the type exceeds `2 ^ 31`, yet `avm_heap_set` of value 1 at `2 ^ 31` does
not report the wrapped size: the loop stops at `new_size = 2 ^ 31`, the heap is
reallocated to `2 ^ 31` cells, the store falls one cell past its end and the call
returns 0. -/
theorem avm_heap_set_half_range_no_error :
    ∃ c1 : AVM_Context,
      avm_init 32 small [] 0 (some fun _ => 0) (some fun _ => 0) (some fun _ => 0)
        = .ok (fresh 32) () ∧
      (fresh 32).memory_size ≤ 2 ^ 31 ∧
      (∀ j, j < 32 → ¬ 2 ^ 31 < 2 ^ j) ∧
      heap_new_size 32 (2 ^ 31) 33 (1 % 2 ^ 32) = some (2 ^ 31) ∧
      avm_heap_set 32 (fresh 32) 1 (2 ^ 31) (some fun _ => 0) = .oob c1 ∧
      (avm_heap_set 32 (fresh 32) 1 (2 ^ 31) (some fun _ => 0)).returned_zero = some c1 ∧
      c1.memory_size = 2 ^ 31 ∧ c1.error = none := by
  have hset := heap_set_pow2_oob 32 31 (by decide) (fresh 32) 1 (fun _ => 0) (by decide)
    (by decide)
  refine ⟨_, fresh_is_init 32 small _ _ (by decide), by decide, by decide,
    heap_new_size_pow2 32 31 (by decide), hset, by rw [hset]; rfl, rfl, rfl⟩

/-- C12 at a context reached by pushes alone: `2 ^ 31 - 1` pushes onto the fresh 32-bit
context leave a well-formed context (`stack_size ≤ stack_cap`); the next
`avm_stack_push` returns 0 and leaves `stack_size = 2 ^ 31` above `stack_cap = 0`, the
slot it wrote, index `stack_size - 1`, not below `stack_cap`. -/
theorem avm_stack_push_breaks_bound :
    ∃ c c1 : AVM_Context,
      avm_init 32 small [] 0 (some fun _ => 0) (some fun _ => 0) (some fun _ => 0)
        = .ok (fresh 32) () ∧
      push_seq 32 (fun _ => 0) (fresh 32) (List.replicate (2 ^ 31 - 1) 3) = some c ∧
      c.wf 32 ∧ c.stack_size ≤ c.stack_cap ∧
      (avm_stack_push 32 c 7 (some fun _ => 0)).returned_zero = some c1 ∧
      ¬ c1.stack_size ≤ c1.stack_cap ∧ ¬ c1.stack_size - 1 < c1.stack_cap := by
  obtain ⟨c, hseq, hwf, hsz, hlt, hcap, _, _⟩ :=
    pushes_from_fresh (fun _ => 0) (List.replicate (2 ^ 31 - 1) 3)
      (by rw [List.length_replicate])
  rw [List.length_replicate] at hsz
  have hc : c.stack_cap = 2 ^ 31 := by omega
  obtain ⟨c1, hpush, h1, h2, _⟩ := push_at_half_range c 7 (fun _ => 0) hsz hc
  refine ⟨c, c1, fresh_is_init 32 small _ _ (by decide), hseq, hwf, hwf.2.2.1,
    by rw [hpush]; rfl, ?_, ?_⟩
  · rw [h1, h2]
    decide
  · rw [h1, h2]
    decide

/-- C13 at `oplen = 2 ^ 61` (32-bit `avm_size_t`, 64-bit `size_t`): the product
`oplen * sizeof(AVM_Operation)` wraps to 0 in `size_t`, so the `assert` of `avm_init`
passes; the call succeeds and leaves `memory_size = 4096`, which is the sum
`oplen + 4096` truncated to 32 bits, not `oplen + 4096`. -/
theorem avm_init_assert_wraps :
    (2 ^ 61 * sizeof_AVM_Operation) % 2 ^ size_t_bits / sizeof_avm_int < AVM_SIZE_MAX 32 / 2 ∧
    avm_init 32 small [] (2 ^ 61) (some fun _ => 0) (some fun _ => 0) (some fun _ => 0)
      = .ok (fresh 32) () ∧
    (fresh 32).memory_size = 4096 ∧ (fresh 32).memory_size ≠ 2 ^ 61 + 4096 ∧
    (2 ^ 61 + 4096) % 2 ^ 32 = 4096 := by
  have hb : (2 ^ 61 * sizeof_AVM_Operation) % 2 ^ size_t_bits / sizeof_avm_int = 0 := by decide
  have hs : (2 ^ 61 + INITIAL_MEMORY_OVERHEAD 32) % 2 ^ size_t_bits % 2 ^ 32
      = INITIAL_MEMORY_OVERHEAD 32 := by decide
  have hmax : 0 < AVM_SIZE_MAX 32 / 2 := by decide
  have hrep : ∀ n : Nat, List.map (fun _ => (0 : Int)) (List.range n) = List.replicate n 0 := by
    intro n
    apply List.ext_getElem <;> simp
  refine ⟨by rw [hb]; exact hmax, ?_, by decide, by decide, by decide⟩
  rw [avm_init_no_copy 32 small [] (2 ^ 61) _ _ _ hb hmax, hs, hrep]
  rfl

/-- C14 at a power of two: on the freshly initialised 32-bit context (`memory_size` 4096)
`avm_heap_set` of value 1 at location `2 ^ 12` returns 0 and leaves `memory_size` equal
to `2 ^ 12`, the location itself, not the smallest power of two strictly greater than
the location, `2 ^ 13`. -/
theorem avm_heap_set_new_size_not_greater :
    ∃ c1 : AVM_Context,
      avm_init 32 small [] 0 (some fun _ => 0) (some fun _ => 0) (some fun _ => 0)
        = .ok (fresh 32) () ∧
      (fresh 32).memory_size ≤ 2 ^ 12 ∧
      (avm_heap_set 32 (fresh 32) 1 (2 ^ 12) (some fun _ => 0)).returned_zero = some c1 ∧
      c1.memory_size = 2 ^ 12 ∧ ¬ 2 ^ 12 < c1.memory_size ∧ c1.memory_size ≠ 2 ^ 13 := by
  have hset := heap_set_pow2_oob 32 12 (by decide) (fresh 32) 1 (fun _ => 0) (by decide)
    (by decide)
  refine ⟨_, fresh_is_init 32 small _ _ (by decide), by decide, by rw [hset]; rfl, rfl,
    ?_, ?_⟩
  · show ¬ 2 ^ 12 < 2 ^ 12
    decide
  · show (2 : Nat) ^ 12 ≠ 2 ^ 13
    decide

/-- C15 at two well-formed 32-bit contexts with `stack_size < AVM_SIZE_MAX` whose push
triggers growth: after `2 ^ 31 - 1` pushes onto the fresh context (`stack_cap = 2 ^ 31`)
the push that returns 0 leaves `stack_cap = 0`, and on `ceiling32`
(`stack_cap = AVM_SIZE_MAX`) it leaves `stack_cap = AVM_SIZE_MAX - 1`; in both cases
`min (2 * stack_cap) AVM_SIZE_MAX`, taken over the integers, is `AVM_SIZE_MAX`. -/
theorem avm_stack_push_cap_wraps :
    (∃ c c1 : AVM_Context,
      push_seq 32 (fun _ => 0) (fresh 32) (List.replicate (2 ^ 31 - 1) 3) = some c ∧
      c.wf 32 ∧ c.stack_size < AVM_SIZE_MAX 32 ∧ c.stack_cap ≤ c.stack_size + 1 ∧
      (avm_stack_push 32 c 7 (some fun _ => 0)).returned_zero = some c1 ∧
      c1.stack_cap = 0 ∧ min (2 * c.stack_cap) (AVM_SIZE_MAX 32) = 2 ^ 32 - 1) ∧
    (∃ c1 : AVM_Context,
      ceiling32.wf 32 ∧ ceiling32.stack_size < AVM_SIZE_MAX 32 ∧
      ceiling32.stack_cap ≤ ceiling32.stack_size + 1 ∧
      (avm_stack_push 32 ceiling32 7 (some fun _ => 0)).returned_zero = some c1 ∧
      c1.stack_cap = 2 ^ 32 - 2 ∧
      min (2 * ceiling32.stack_cap) (AVM_SIZE_MAX 32) = 2 ^ 32 - 1) := by
  constructor
  · obtain ⟨c, hseq, hwf, hsz, hlt, hcap, _, _⟩ :=
      pushes_from_fresh (fun _ => 0) (List.replicate (2 ^ 31 - 1) 3)
        (by rw [List.length_replicate])
    rw [List.length_replicate] at hsz
    have hc : c.stack_cap = 2 ^ 31 := by omega
    obtain ⟨c1, hpush, _, h2, _⟩ := push_at_half_range c 7 (fun _ => 0) hsz hc
    refine ⟨c, c1, hseq, hwf, by rw [hsz]; decide, by rw [hsz, hc]; decide,
      by rw [hpush]; rfl, h2, by rw [hc]; decide⟩
  · have hq := push_grow_oob 32 ceiling32 7 (fun _ => 0) (by decide) (by decide) (by decide)
      (by decide)
    exact ⟨_, ceiling32_wf, by decide, by decide, by rw [hq]; rfl, by decide, by decide⟩

/-- C16: on the context `avm_init` builds from a program that meets the size assertion
(`avm_size_t` of at least 14 bits, empty stack of capacity 4096), 4097 pushes with a
succeeding allocator all return 0, exactly one of them changes `stack_cap`, and they
end with `stack_cap = 2 * 4096` and `stack_size = 4097`. -/
theorem avm_stack_push_grows_once (w : Nat) (p : List Int) (j0 junk : Nat → Int)
    (vs : List Int) (hw : 14 ≤ w) (hpre : p.length < AVM_SIZE_MAX w / 2)
    (hlen : vs.length = 4096 + 1) :
    (initialized w p j0).stack_size = 0 ∧ (initialized w p j0).stack_cap = 4096 ∧
    ∃ ctx', push_seq w junk (initialized w p j0) vs = some ctx' ∧
      growths w junk (initialized w p j0) vs = 1 ∧
      ctx'.stack_cap = 2 * 4096 ∧ ctx'.stack_size = 4096 + 1 := by
  have hov := overhead_eq w (by omega)
  have hwf := initialized_wf w p j0 (by omega) hpre
  have hcap0 : (initialized w p j0).stack_cap = 4096 := hov
  have hp : 2 ^ 14 ≤ 2 ^ w := Nat.pow_le_pow_right (by norm_num) hw
  refine ⟨rfl, hcap0, ?_⟩
  have hsplit : vs = vs.take 4095 ++ vs.drop 4095 := (List.take_append_drop 4095 vs).symm
  have hdrop : (vs.drop 4095).length = 2 := by rw [List.length_drop]; omega
  obtain ⟨a, b, hab⟩ := List.length_eq_two.1 hdrop
  have htake : (vs.take 4095).length = 4095 := by rw [List.length_take]; omega
  obtain ⟨c1, hseq1, hwf1, hsz1, hcap1, hg1⟩ :=
    pushes_no_growth w junk (vs.take 4095) (initialized w p j0) hwf (by
      rw [htake, hcap0]
      show 0 + 4095 < 4096
      decide)
  rw [htake] at hsz1
  have hsz1' : c1.stack_size = 4095 := by
    rw [hsz1]
    show 0 + 4095 = 4095
    rfl
  rw [hcap0] at hcap1
  obtain ⟨c2, hpush2, hwf2, hsz2, _, hcap2, _⟩ :=
    push_in_range w c1 a junk hwf1 (by omega) (Or.inr (by omega))
  rw [if_neg (by omega), hcap1] at hcap2
  have hret2 : (avm_stack_push w c1 a (some junk)).returned_zero = some c2 := by
    rw [hpush2]; rfl
  obtain ⟨c3, hpush3, _, hsz3, _, hcap3, _⟩ :=
    push_in_range w c2 b junk hwf2 (by omega) (Or.inl (by omega))
  rw [if_pos (by omega), hcap2] at hcap3
  have hret3 : (avm_stack_push w c2 b (some junk)).returned_zero = some c3 := by
    rw [hpush3]; rfl
  have hseq2 : push_seq w junk c1 [a, b] = some c3 := by
    rw [push_seq_cons w junk c1 c2 a [b] hret2, push_seq_cons w junk c2 c3 b [] hret3,
      push_seq_nil]
  have hg2 : growths w junk c1 [a, b] = 1 := by
    rw [growths_cons w junk c1 c2 a [b] hret2, growths_cons w junk c2 c3 b [] hret3,
      if_neg (by omega), if_pos (by omega)]
    rfl
  refine ⟨c3, ?_, ?_, by rw [hcap3], by omega⟩
  · rw [hsplit, push_seq_append, hseq1, hab]
    exact hseq2
  · rw [hsplit, growths_append w junk _ _ _ c1 hseq1, hg1, hab, hg2]

/-- Witness of C16: 4097 pushes of the value 5 after `avm_init` on the program
`[10, 20, 30]`, 32-bit `avm_size_t`. -/
theorem avm_stack_push_grows_once_witness :
    14 ≤ 32 ∧ ([10, 20, 30] : List Int).length < AVM_SIZE_MAX 32 / 2 ∧
    (List.replicate 4097 (5 : Int)).length = 4096 + 1 ∧
    avm_init 32 small [10, 20, 30] 3 (some fun _ => 0) (some fun _ => 0) (some fun _ => 0)
      = .ok (initialized 32 [10, 20, 30] fun _ => 0) () ∧
    ∃ ctx', push_seq 32 (fun _ => 0) (initialized 32 [10, 20, 30] fun _ => 0)
        (List.replicate 4097 5) = some ctx' ∧
      growths 32 (fun _ => 0) (initialized 32 [10, 20, 30] fun _ => 0)
        (List.replicate 4097 5) = 1 ∧
      ctx'.stack_cap = 2 * 4096 ∧ ctx'.stack_size = 4096 + 1 :=
  ⟨by decide, by decide, List.length_replicate _ _,
   avm_init_ok 32 small [10, 20, 30] _ _ _ (by decide) (by decide),
   (avm_stack_push_grows_once 32 [10, 20, 30] (fun _ => 0) (fun _ => 0)
      (List.replicate 4097 5) (by decide) (by decide) (List.length_replicate _ _)).2.2⟩

/-- C17 at a power of two: after `avm_init` on the program `[10, 20, 30]` (32-bit,
`memory_size` 4099), `avm_heap_set` of value 5 at location `2 ^ 13` reaches the write
path and returns 0 with a heap of `2 ^ 13` cells and `memory_size = 2 ^ 13`: the index
`2 ^ 13` of the store is not below the `memory_size` in force, the store is out of
bounds. -/
theorem avm_heap_set_store_out_of_bounds :
    ∃ c0 c1 : AVM_Context,
      avm_init 32 small [10, 20, 30] 3 (some fun _ => 0) (some fun _ => 0) (some fun _ => 0)
        = .ok c0 () ∧
      c0.memory_size = 4099 ∧
      avm_heap_set 32 c0 5 (2 ^ 13) (some fun _ => 0) = .oob c1 ∧
      (avm_heap_set 32 c0 5 (2 ^ 13) (some fun _ => 0)).returned_zero = some c1 ∧
      c1.memory_size = 2 ^ 13 ∧ c1.memory.length = 2 ^ 13 ∧ ¬ 2 ^ 13 < c1.memory_size := by
  have hinit := avm_init_ok 32 small [10, 20, 30] (fun _ => 0) (fun _ => 0) (fun _ => 0)
    (by decide) (by decide)
  have hsize : (initialized 32 [10, 20, 30] fun _ => 0).memory_size = 4099 := by decide
  have hset := heap_set_pow2_oob 32 13 (by decide) (initialized 32 [10, 20, 30] fun _ => 0) 5
    (fun _ => 0) (by decide) (by rw [hsize]; decide)
  refine ⟨_, _, hinit, hsize, hset, by rw [hset]; rfl, rfl, ?_, ?_⟩
  · simp only [List.length_map, List.length_range]
  · show ¬ 2 ^ 13 < 2 ^ 13
    decide

/-- C18: when `avm_heap_set` fails with the wrapped-size diagnostic, the context it leaves
differs from the one it received in the error slot only: `memory`, `memory_size` and the
three stack fields are as before, and `avm_heap_get` returns at every location what it
returned before. -/
theorem avm_heap_set_wrap_error_frame (w : Nat) (ctx : AVM_Context) (data : Int) (loc : Nat)
    (a : Alloc) (c : AVM_Context)
    (h : avm_heap_set w ctx data loc a = .err c)
    (hmsg : c.error = some (wrapped_size_error loc)) :
    c = { ctx with error := some (wrapped_size_error loc) } ∧
    c.memory = ctx.memory ∧ c.memory_size = ctx.memory_size ∧
    c.stack = ctx.stack ∧ c.stack_size = ctx.stack_size ∧ c.stack_cap = ctx.stack_cap ∧
    ∀ i, (avm_heap_get c i).value = (avm_heap_get ctx i).value := by
  have hc : c = { ctx with error := some (wrapped_size_error loc) } := by
    unfold avm_heap_set at h
    split at h
    · simp at h
    · split at h
      · split at h
        · simp at h
        · split at h
          · simp only [avm__error, Outcome.err.injEq] at h
            exact h.symm
          · split at h
            · simp only [avm__error, Outcome.err.injEq] at h
              subst h
              simp [wrapped_size_error] at hmsg
            · unfold heap_store at h
              split at h <;> simp at h
      · unfold heap_store at h
        split at h <;> simp at h
  subst hc
  refine ⟨rfl, rfl, rfl, rfl, rfl, rfl, ?_⟩
  intro i
  unfold avm_heap_get
  dsimp only
  split
  · rfl
  · split <;> rfl

/-- Witness of C18: on the small 32-bit context, value 1 at location `AVM_SIZE_MAX`. -/
theorem avm_heap_set_wrap_error_frame_witness :
    avm_heap_set 32 small 1 (2 ^ 32 - 1) none = .err { small with error := some (wrapped_size_error (2 ^ 32 - 1)) } ∧
    ({ small with error := some (wrapped_size_error (2 ^ 32 - 1)) } : AVM_Context).memory = small.memory ∧
    (avm_heap_get { small with error := some (wrapped_size_error (2 ^ 32 - 1)) } 1).value = (avm_heap_get small 1).value :=
  have h := avm_heap_set_wrap_error_frame 32 small 1 (2 ^ 32 - 1) none
    { small with error := some (wrapped_size_error (2 ^ 32 - 1)) } (by decide) (by decide)
  ⟨by decide, h.2.1, h.2.2.2.2.2.2 1⟩

/-- C20: for every location the doubling loop of `avm_heap_set`, started from 1, ends
within `w + 1` tests of its condition, that is after at most `w` doublings, with
`new_size` either 0 or a power of two of the type; and whenever the growth branch
(nonzero value, location at or beyond `memory_size`) reaches `return 0`, `memory_size`
has not decreased. -/
theorem avm_heap_set_loop_terminates (w loc : Nat) :
    (∃ r, heap_new_size w loc (w + 1) (1 % 2 ^ w) = some r ∧
      (r = 0 ∨ ∃ j, j < w ∧ r = 2 ^ j)) ∧
    (∀ (ctx : AVM_Context) (data : Int) (a : Alloc) (ctx' : AVM_Context),
      ctx.memory_size ≤ loc → data ≠ 0 →
      (avm_heap_set w ctx data loc a).returned_zero = some ctx' →
      ctx.memory_size ≤ ctx'.memory_size) := by
  constructor
  · obtain ⟨r, hr, hcase⟩ := heap_new_size_result w loc
    refine ⟨r, hr, ?_⟩
    rcases hcase with ⟨h0, _⟩ | ⟨j, hj, hrj, _, _⟩
    · exact Or.inl h0
    · exact Or.inr ⟨j, hj, hrj⟩
  · intro ctx data a ctx' hge hd hset
    unfold avm_heap_set at hset
    rw [if_neg (fun h => hd h.1), if_pos hge] at hset
    split at hset
    · simp [Outcome.returned_zero] at hset
    · rename_i n hn
      have hexit := heap_new_size_exit w loc _ _ _ hn
      split at hset
      · simp [avm__error, Outcome.returned_zero] at hset
      · rename_i hn0
        have hln : loc ≤ n := by omega
        cases a with
        | none => simp [my_crealloc, avm__error, Outcome.returned_zero] at hset
        | some junk =>
          simp only [my_crealloc, Option.map_some'] at hset
          unfold heap_store at hset
          split at hset
          · simp only [Outcome.returned_zero, Option.some.injEq] at hset
            subst hset
            show ctx.memory_size ≤ n
            omega
          · simp only [Outcome.returned_zero, Option.some.injEq] at hset
            subst hset
            show ctx.memory_size ≤ n
            omega

/-- Witness of C20: on the small 32-bit context (heap of 4 cells) the value 9 at location
5 grows the heap to 8 cells; the loop ends at `new_size = 8`. -/
theorem avm_heap_set_loop_terminates_witness :
    heap_new_size 32 5 33 (1 % 2 ^ 32) = some 8 ∧
    small.memory_size ≤ 5 ∧ (9 : Int) ≠ 0 ∧
    (avm_heap_set 32 small 9 5 (some fun _ => 0)).returned_zero
      = some { small with memory := [10, 20, 30, 0, 0, 9, 0, 0], memory_size := 8 } ∧
    small.memory_size ≤
      ({ small with memory := [10, 20, 30, 0, 0, 9, 0, 0], memory_size := 8 } :
        AVM_Context).memory_size :=
  ⟨by decide, by decide, by decide, by decide,
   (avm_heap_set_loop_terminates 32 5).2 small 9 (some fun _ => 0)
     { small with memory := [10, 20, 30, 0, 0, 9, 0, 0], memory_size := 8 }
     (by decide) (by decide) (by decide)⟩

end AVM
